import Mathlib

/-!
# Verification of the async-queue-manager core

Shallow embedding of the repository's core components:

* `TaskGraph` (src/lib/task-graph.js): task registry, forward/reverse
  adjacency, completion set, incremental cycle check, ready set,
  topological order.
* `QueueManager` (src/lib/queue-manager.js): bounded-concurrency
  scheduler driving a `TaskGraph`, modelled as executable state-update
  functions plus a step relation over scheduler states.
* `AdaptiveConcurrency` (src/lib/adaptive-concurrency.js): the sampling
  control law that proposes a new concurrency bound.

JS `Map`s are modelled as association lists keyed by task id (insertion
order preserved, keys unique), JS `Set`s as duplicate-free lists in
insertion order, and JS numbers as rationals.  Task function bodies and
wall-clock timestamps are opaque to every property treated here and are
omitted; a task's outcome (fulfil or reject) is supplied at its settle
step.  Errors thrown by a method are modelled by returning the state at
the moment of the throw paired with `some` error tag, because the JS
code mutates in place and a throw keeps all mutations made before it.
-/

deriving instance DecidableEq for Except

/-- Task identifiers; the source uses arbitrary string-like keys, any
infinite type with decidable equality is faithful. -/
abbrev TaskId := Nat

/-- Error taxonomy of the spec (section 7); the source throws `Error`
objects whose messages distinguish exactly these cases. -/
inductive GraphError where
  | duplicateTask
  | unknownTask
  | cycle
  | validation
deriving DecidableEq, Repr

/-- State of `TaskGraph` (src/lib/task-graph.js, constructor):
`tasks` is the key set of the `tasks` Map in insertion order (the stored
task objects are opaque), `dependencies` and `dependents` are the two
adjacency Maps, `completed` is the completion Set. -/
structure TaskGraph where
  tasks : List TaskId
  dependencies : List (TaskId × List TaskId)
  dependents : List (TaskId × List TaskId)
  completed : List TaskId
deriving DecidableEq, Repr

/-- `map.get(k)` on an adjacency Map, defaulting to `[]` when absent
(the source writes `this.dependencies.get(current) || []`). -/
def assocGet (m : List (TaskId × List TaskId)) (k : TaskId) : List TaskId :=
  match m.find? (fun e => e.1 == k) with
  | some e => e.2
  | none => []

/-- `map.get(k).push(v)`: append `v` to the entry of `k`. -/
def assocPush (m : List (TaskId × List TaskId)) (k v : TaskId) :
    List (TaskId × List TaskId) :=
  m.map (fun e => if e.1 == k then (e.1, e.2 ++ [v]) else e)

/-- The empty graph (`new TaskGraph()`). -/
def TaskGraph.empty : TaskGraph :=
  { tasks := [], dependencies := [], dependents := [], completed := [] }

/-- `addTask(taskId, taskFn, options)`: duplicate ids are rejected,
otherwise the id is registered with empty adjacency entries.  The stored
task object (`execute` plus options) is opaque and omitted. -/
def TaskGraph.addTask (g : TaskGraph) (taskId : TaskId) :
    TaskGraph × Option GraphError :=
  if taskId ∈ g.tasks then (g, some .duplicateTask)
  else
    ({ tasks := g.tasks ++ [taskId],
       dependencies := g.dependencies ++ [(taskId, [])],
       dependents := g.dependents ++ [(taskId, [])],
       completed := g.completed }, none)

/-- One iteration step of the `wouldCreateCycle` stack loop.  The JS
loop terminates because every iteration either pops an element without
pushing, or moves a node into `visited`; `fuel` is instantiated large
enough (`cycleFuel`) that it never runs out on graphs whose adjacency
lists mention only registered ids. -/
def cycleSearch (g : TaskGraph) (frm : TaskId) :
    Nat → List TaskId → List TaskId → Bool
  | 0, _, _ => false
  | _ + 1, _, [] => false
  | fuel + 1, visited, current :: stack =>
    if current == frm then true
    else if current ∈ visited then cycleSearch g frm fuel visited stack
    else cycleSearch g frm fuel (current :: visited)
      ((assocGet g.dependencies current).reverse ++ stack)

/-- Fuel bound for `cycleSearch`: at most one visit per node, each visit
pushes at most the total number of adjacency entries. -/
def TaskGraph.cycleFuel (g : TaskGraph) : Nat :=
  (g.tasks.length + 1) *
    (g.dependencies.foldl (fun a e => a + e.2.length) 0 + g.tasks.length + 2)

/-- `wouldCreateCycle(from, to)` (src/lib/task-graph.js lines 55-76): a
depth-first traversal that starts from `to`, follows `dependencies`
edges, and reports whether `from` is reached.  Note the direction: the
call site passes `from := depId, to := taskId`, so this asks whether the
dependent already (transitively) depends on the new prerequisite. -/
def TaskGraph.wouldCreateCycle (g : TaskGraph) (frm tgt : TaskId) : Bool :=
  cycleSearch g frm g.cycleFuel [] [tgt]

/-- The per-prerequisite loop of `addDependency`: unknown prerequisite
and cycle-check failures throw, leaving all mutations made for earlier
list elements in place; an already-recorded prerequisite is skipped. -/
def addDepLoop (taskId : TaskId) :
    TaskGraph → List TaskId → TaskGraph × Option GraphError
  | g, [] => (g, none)
  | g, depId :: rest =>
    if depId ∈ g.tasks then
      if g.wouldCreateCycle depId taskId then (g, some .cycle)
      else
        addDepLoop taskId
          (if depId ∈ assocGet g.dependencies taskId then g
           else
             { g with
               dependencies := assocPush g.dependencies taskId depId,
               dependents := assocPush g.dependents depId taskId }) rest
    else (g, some .unknownTask)

/-- `addDependency(taskId, dependsOn)` (src/lib/task-graph.js lines
27-52).  The source normalises a single id to a one-element array; the
embedding takes the normalised list. -/
def TaskGraph.addDependency (g : TaskGraph) (taskId : TaskId)
    (dependsOn : List TaskId) : TaskGraph × Option GraphError :=
  if taskId ∈ g.tasks then addDepLoop taskId g dependsOn
  else (g, some .unknownTask)

/-- `getReadyTasks()`: registered ids, in registration order, that are
not completed and whose every dependency is completed. -/
def TaskGraph.getReadyTasks (g : TaskGraph) : List TaskId :=
  g.tasks.filter fun id =>
    decide (id ∉ g.completed ∧
      ∀ x ∈ assocGet g.dependencies id, x ∈ g.completed)

/-- `markCompleted(taskId)`: unknown ids throw; adding an id already in
the completion Set is a no-op. -/
def TaskGraph.markCompleted (g : TaskGraph) (taskId : TaskId) :
    TaskGraph × Option GraphError :=
  if taskId ∈ g.tasks then
    if taskId ∈ g.completed then (g, none)
    else ({ g with completed := g.completed ++ [taskId] }, none)
  else (g, some .unknownTask)

/-- `reset()`: empties the completion set. -/
def TaskGraph.reset (g : TaskGraph) : TaskGraph :=
  { g with completed := [] }

/-- `isComplete()`: completion Set size equals task Map size. -/
def TaskGraph.isComplete (g : TaskGraph) : Bool :=
  g.completed.length == g.tasks.length

/-- `getDependencies(taskId)`: throws on unknown ids. -/
def TaskGraph.getDependencies (g : TaskGraph) (taskId : TaskId) :
    Except GraphError (List TaskId) :=
  if taskId ∈ g.tasks then .ok (assocGet g.dependencies taskId)
  else .error .unknownTask

/-- Accumulated state of the recursive `visit` of
`getTopologicalOrder`: the grey set `temp`, the black set `visited`, and
the output `order`, each in insertion order. -/
structure TopoSt where
  temp : List TaskId
  visited : List TaskId
  order : List TaskId
deriving DecidableEq, Repr

/-- The recursive `visit(taskId)` of `getTopologicalOrder`: grey hit
throws a cycle error, black nodes return unchanged, otherwise the node
is greyed, its dependencies visited, and the node moved to black and
appended to the output.  `fuel` bounds recursion depth, which the JS
achieves by the grey set growing along every path. -/
def topoVisit (g : TaskGraph) :
    Nat → TopoSt → TaskId → Except GraphError TopoSt
  | 0, _, _ => .error .cycle
  | fuel + 1, st, taskId =>
    if taskId ∈ st.temp then .error .cycle
    else if taskId ∈ st.visited then .ok st
    else do
      let st1 ← (assocGet g.dependencies taskId).foldlM (topoVisit g fuel)
        { st with temp := st.temp ++ [taskId] }
      .ok { temp := st1.temp.erase taskId,
            visited := st1.visited ++ [taskId],
            order := st1.order ++ [taskId] }

/-- Recursion-depth bound for `topoVisit`: the grey set only ever holds
distinct ids drawn from the task list and the adjacency entries. -/
def TaskGraph.topoFuel (g : TaskGraph) : Nat :=
  g.tasks.length + g.dependencies.foldl (fun a e => a + e.2.length) 0 + 2

/-- `getTopologicalOrder()` (src/lib/task-graph.js lines 153-184):
depth-first marking over every registered id, then `order.reverse()`. -/
def TaskGraph.getTopologicalOrder (g : TaskGraph) :
    Except GraphError (List TaskId) := do
  let st ← g.tasks.foldlM
    (fun st id => if id ∈ st.visited then .ok st else topoVisit g g.topoFuel st id)
    ⟨[], [], []⟩
  .ok st.order.reverse

/-! ## Concrete graphs used by the claims

Task ids are numbered in registration order: `a := 0`, `b := 1`,
`c := 2`; `9` is never registered. -/

/-- Tasks `a, b` with no dependencies. -/
def gAB : TaskGraph := ((TaskGraph.empty.addTask 0).1.addTask 1).1

/-- Tasks `a, b` with `deps(a) = [b]` (recorded by a first, successful,
`addDependency(a, b)` call). -/
def gXY : TaskGraph := (gAB.addDependency 0 [1]).1

/-- Scenario S3 of the spec: tasks `a, b, c` with `deps(b) = [a]` and
`deps(c) = [b]`. -/
def gABC : TaskGraph :=
  ((((gAB.addTask 2).1.addDependency 1 [0]).1.addDependency 2 [1]).1)

/-- Scenario S4 of the spec: tasks `a, b, c` with `deps(b) = [a]` and
`c` independent. -/
def gS4 : TaskGraph := ((gAB.addTask 2).1.addDependency 1 [0]).1

/-- C1: the claim says `AddDependency(a, c)` on the chain
`deps(b)={a}, deps(c)={b}` raises `CycleError` and leaves `deps(a)`
empty, because the incremental check searches from the prerequisite for
the dependent.  The code searches in the opposite direction (from the
dependent `taskId` for the prerequisite `depId`), so the call succeeds,
records the edge, and makes the deps relation cyclic — as witnessed by
`getTopologicalOrder` now hitting its grey-node cycle branch.  The
mutation sequence `addTask a/b/c; addDependency(b,a); addDependency(c,b);
addDependency(a,c)` raises no error yet reaches a cyclic graph, refuting
the acyclicity invariant as well. -/
theorem C1_cycle_check_reversed_eval :
    (gAB.addTask 2).2 = none ∧
    ((gAB.addTask 2).1.addDependency 1 [0]).2 = none ∧
    (((gAB.addTask 2).1.addDependency 1 [0]).1.addDependency 2 [1]).2 = none ∧
    (gABC.addDependency 0 [2]).2 = none ∧
    assocGet (gABC.addDependency 0 [2]).1.dependencies 0 = [2] ∧
    (gABC.addDependency 0 [2]).1.getTopologicalOrder =
      Except.error GraphError.cycle := by
  decide

/-- C3: the claim says `TopologicalOrder()` puts every prerequisite
before its dependents, giving `[a, b, c]` on the chain.  The code builds
exactly that order by its depth-first marking and then calls
`order.reverse()`, so it returns `[c, b, a]`: `a ∈ deps(b)` yet `a`
comes after `b`. -/
theorem C3_topological_order_reversed_eval :
    gABC.getTopologicalOrder = Except.ok [2, 1, 0] ∧
    0 ∈ assocGet gABC.dependencies 1 ∧
    [2, 1, 0].indexOf 1 < [2, 1, 0].indexOf 0 := by
  decide

/-- C4: the claim says a repeated `AddDependency(x, y)` succeeds and is
skipped as a recorded duplicate.  In the code the cycle check runs
before the duplicate check, and its reversed traversal (from `x` over
deps) now finds `y` in `deps(x)`, so the second call raises `CycleError`
instead; the duplicate-skip branch is unreachable for true duplicates. -/
theorem C4_duplicate_dependency_raises_eval :
    (gAB.addDependency 0 [1]).2 = none ∧
    assocGet gXY.dependencies 0 = [1] ∧
    (gXY.addDependency 0 [1]).2 = some GraphError.cycle ∧
    (gXY.addDependency 0 [1]).1 = gXY := by
  decide

/-- C5 counterexample: the claim says `AddDependency(id, prereqs)` with
an unregistered id anywhere in the collection records none of the listed
edges.  With tasks `a, b` registered, `addDependency(a, [b, 9])` raises
`UnknownTaskError` on the second element, but the edge for the first,
valid element is already recorded: `deps(a) = [b]`, not `[]`. -/
theorem C5_partial_mutation_counterexample :
    (gAB.addDependency 0 [1, 9]).2 = some GraphError.unknownTask ∧
    assocGet (gAB.addDependency 0 [1, 9]).1.dependencies 0 = [1] ∧
    assocGet (gAB.addDependency 0 [1, 9]).1.dependents 1 = [0] := by
  decide

/-- C5 amended: a failing `addDependency` leaves the graph exactly as
mutated by the prerequisites already processed.  In particular a call
with a single prerequisite that raises leaves the graph unchanged
(every throw happens before that element mutates anything), while a
multi-element collection keeps the edges of the elements processed
before the failing one — the concrete conjunct repeats the
counterexample state. -/
theorem C5_amended_failure_mutation_extent :
    (∀ (g : TaskGraph) (id p : TaskId),
      (g.addDependency id [p]).2.isSome → (g.addDependency id [p]).1 = g) ∧
    (gAB.addDependency 0 [1, 9]).1.dependencies = [(0, [1]), (1, [])] := by
  constructor
  · intro g id p h
    unfold TaskGraph.addDependency at h ⊢
    by_cases h1 : id ∈ g.tasks
    · simp only [if_pos h1, addDepLoop] at h ⊢
      by_cases h2 : p ∈ g.tasks
      · simp only [if_pos h2] at h ⊢
        by_cases h3 : g.wouldCreateCycle p id = true
        · simp [h3] at h ⊢
        · simp [h3, addDepLoop] at h
      · simp [h2] at h ⊢
    · simp [h1] at h ⊢
  · decide

/-- C5 amended witness: the single-prerequisite part applied to the
concrete failing call `addDependency(a, [9])` on the two-task graph. -/
theorem C5_amended_witness :
    (gAB.addDependency 0 [9]).2.isSome = true ∧
    (gAB.addDependency 0 [9]).1 = gAB :=
  ⟨by decide, C5_amended_failure_mutation_extent.1 gAB 0 9 (by decide)⟩

/-! ## AdaptiveConcurrency (src/lib/adaptive-concurrency.js)

Sampling is driven by a timer; the embedding models one `_checkResources`
invocation as a function of the sampled CPU and memory percentages.  The
timer handle, `isMonitoring` flag and `checkInterval` only start and stop
that timer and are omitted. -/

/-- Constructor options; `none` models an omitted field. -/
structure AdaptiveOptions where
  minConcurrency : Option ℚ := none
  maxConcurrency : Option ℚ := none
  targetCpuUtilization : Option ℚ := none
  targetMemoryUtilization : Option ℚ := none
  adjustmentStep : Option ℚ := none
deriving DecidableEq, Repr

/-- JS `options.x || default`: an omitted field and the falsy number `0`
both fall back to the default. -/
def jsOr (v : Option ℚ) (d : ℚ) : ℚ :=
  match v with
  | some q => if q = 0 then d else q
  | none => d

/-- Controller state after construction: configured bounds and targets,
the currently recommended concurrency, and the two rolling windows. -/
structure AdaptiveState where
  minConcurrency : ℚ
  maxConcurrency : ℚ
  targetCpuUtilization : ℚ
  targetMemoryUtilization : ℚ
  adjustmentStep : ℚ
  currentConcurrency : ℚ
  cpuHistory : List ℚ
  memHistory : List ℚ
  historySize : Nat
deriving DecidableEq, Repr

/-- `new AdaptiveConcurrency(options)` with `cpuCount` standing for
`os.cpus().length`: every field defaults via `||`, and the starting
recommendation is set to `this.maxConcurrency` unconditionally. -/
def mkAdaptiveConcurrency (opts : AdaptiveOptions) (cpuCount : ℚ) :
    AdaptiveState :=
  { minConcurrency := jsOr opts.minConcurrency 1,
    maxConcurrency := jsOr opts.maxConcurrency cpuCount,
    targetCpuUtilization := jsOr opts.targetCpuUtilization 70,
    targetMemoryUtilization := jsOr opts.targetMemoryUtilization 80,
    adjustmentStep := jsOr opts.adjustmentStep 1,
    currentConcurrency := jsOr opts.maxConcurrency cpuCount,
    cpuHistory := [],
    memHistory := [],
    historySize := 3 }

/-- `_addMetric`: push the sample, then shift the oldest entry out when
the window exceeds `historySize`. -/
def addMetric (historySize : Nat) (h : List ℚ) (v : ℚ) : List ℚ :=
  if historySize < (h ++ [v]).length then (h ++ [v]).tail else h ++ [v]

/-- `_getAverageMetric`: arithmetic mean of the window, `0` when empty. -/
def averageMetric (h : List ℚ) : ℚ :=
  if h.length = 0 then 0 else h.sum / h.length

/-- The proposal computed by `_checkResources` before clamping (lines
78-93): the CPU band rule adjusts by one step, then the memory-pressure
rule subtracts a further step on top of whatever the CPU rule chose. -/
def proposeConcurrency (current step tCpu tMem avgCpu avgMem : ℚ) : ℚ :=
  let n1 :=
    if tCpu + 10 < avgCpu then current - step
    else if avgCpu < tCpu - 10 ∧ avgMem < tMem then current + step
    else current
  if tMem + 10 < avgMem then n1 - step else n1

/-- The clamp of `_checkResources` (line 96):
`Math.max(min, Math.min(max, x))`. -/
def clampConcurrency (minC maxC x : ℚ) : ℚ :=
  max minC (min maxC x)

/-- One `_checkResources` invocation on sampled `cpuUsage` and
`memUsage`: update both windows, average them, propose, clamp, and when
the clamped value differs from the current recommendation adopt it and
emit `concurrency-update` plus `metrics` — returned as
`some (avgCpu, avgMem, newConcurrency, previousConcurrency)`. -/
def checkResources (st : AdaptiveState) (cpuUsage memUsage : ℚ) :
    AdaptiveState × Option (ℚ × ℚ × ℚ × ℚ) :=
  let cpuHistory := addMetric st.historySize st.cpuHistory cpuUsage
  let memHistory := addMetric st.historySize st.memHistory memUsage
  let avgCpu := averageMetric cpuHistory
  let avgMem := averageMetric memHistory
  let newC := clampConcurrency st.minConcurrency st.maxConcurrency
    (proposeConcurrency st.currentConcurrency st.adjustmentStep
      st.targetCpuUtilization st.targetMemoryUtilization avgCpu avgMem)
  if newC ≠ st.currentConcurrency then
    ({ st with cpuHistory := cpuHistory, memHistory := memHistory,
               currentConcurrency := newC },
     some (avgCpu, avgMem, newC, st.currentConcurrency))
  else
    ({ st with cpuHistory := cpuHistory, memHistory := memHistory }, none)

/-- `setConcurrency(concurrency)` on the controller: clamp, and emit
`concurrency-update` only when the value changes. -/
def AdaptiveState.setConcurrency (st : AdaptiveState) (concurrency : ℚ) :
    AdaptiveState × Option ℚ :=
  let newC := clampConcurrency st.minConcurrency st.maxConcurrency concurrency
  if newC ≠ st.currentConcurrency then
    ({ st with currentConcurrency := newC }, some newC)
  else (st, none)

/-- Controller state mid-run used by the C8 counterexample: bounds
`[1, 8]`, targets `70/80`, step `1`, current recommendation `4`, empty
windows. -/
def st8 : AdaptiveState :=
  { minConcurrency := 1, maxConcurrency := 8, targetCpuUtilization := 70,
    targetMemoryUtilization := 80, adjustmentStep := 1,
    currentConcurrency := 4, cpuHistory := [], memHistory := [],
    historySize := 3 }

/-- C8 counterexample: the claim says that whenever
`avgMem > targetMem + 10` the pre-clamp proposal is `current − step`
regardless of CPU, never `current − 2·step`.  With `current = 4`,
`step = 1`, targets `70/80` and averages `avgCpu = 90`, `avgMem = 95`,
both down-pressure rules fire and the code proposes
`4 − 1 − 1 = 2 ≠ 3 = current − step`; a full `_checkResources` tick on
samples `(90, 95)` adopts and emits `2`. -/
theorem C8_double_decrement_counterexample :
    proposeConcurrency 4 1 70 80 90 95 = 4 - 2 * 1 ∧
    proposeConcurrency 4 1 70 80 90 95 ≠ 4 - 1 ∧
    (checkResources st8 90 95).1.currentConcurrency = 2 ∧
    (checkResources st8 90 95).2 = some (90, 95, 2, 4) := by
  have hp : proposeConcurrency 4 1 70 80 90 95 = 2 := by
    norm_num [proposeConcurrency]
  refine ⟨by rw [hp]; norm_num, by rw [hp]; norm_num, ?_, ?_⟩ <;>
    norm_num [checkResources, st8, addMetric, averageMetric,
      clampConcurrency, hp]

/-- C8 amended: when `avgMem > targetMem + 10` the pre-clamp proposal is
`current − 2·step` if additionally `avgCpu > targetCpu + 10`, and
`current − step` otherwise (the memory rule subtracts its step on top of
the CPU rule instead of forcing `current − step`); the final
recommendation is always the proposal clamped into `[min, max]`. -/
theorem C8_amended_memory_pressure_stacks :
    (∀ current step tCpu tMem avgCpu avgMem : ℚ, tMem + 10 < avgMem →
      proposeConcurrency current step tCpu tMem avgCpu avgMem =
        if tCpu + 10 < avgCpu then current - 2 * step else current - step) ∧
    (∀ minC maxC x : ℚ, minC ≤ maxC →
      minC ≤ clampConcurrency minC maxC x ∧
        clampConcurrency minC maxC x ≤ maxC) := by
  constructor
  · intro current step tCpu tMem avgCpu avgMem hmem
    have hnotmid : ¬ (avgCpu < tCpu - 10 ∧ avgMem < tMem) := by
      rintro ⟨-, h2⟩; linarith
    by_cases hcpu : tCpu + 10 < avgCpu
    · simp only [proposeConcurrency, if_pos hmem, if_pos hcpu]
      ring
    · simp only [proposeConcurrency, if_pos hmem, if_neg hcpu,
        if_neg hnotmid]
  · intro minC maxC x hle
    unfold clampConcurrency
    constructor
    · exact le_max_left _ _
    · exact max_le hle (min_le_left _ _)

/-- C8 amended witness: the amended rule applied at the counterexample
numbers, and the clamp bounds at `[1, 8]`. -/
theorem C8_amended_memory_pressure_stacks_witness :
    proposeConcurrency 4 1 70 80 90 95 =
      (if (70 : ℚ) + 10 < 90 then 4 - 2 * 1 else 4 - 1) ∧
    (1 : ℚ) ≤ clampConcurrency 1 8 (-5) ∧ clampConcurrency 1 8 (-5) ≤ 8 :=
  ⟨C8_amended_memory_pressure_stacks.1 4 1 70 80 90 95 (by norm_num),
   (C8_amended_memory_pressure_stacks.2 1 8 (-5) (by norm_num)).1,
   (C8_amended_memory_pressure_stacks.2 1 8 (-5) (by norm_num)).2⟩

/-- C10: for every constructor option record and host CPU count, the
initial recommended concurrency equals the configured
`maxConcurrency` — the host CPU count when that option is omitted — and
no option sets a different starting value; consequently the first
downward adjustment (CPU average above band, memory not above band)
proposes `maxConcurrency − step`. -/
theorem C10_initial_recommendation_is_max (opts : AdaptiveOptions)
    (cpuCount avgCpu avgMem : ℚ)
    (hcpu : (mkAdaptiveConcurrency opts cpuCount).targetCpuUtilization + 10
      < avgCpu)
    (hmem : ¬ ((mkAdaptiveConcurrency opts cpuCount).targetMemoryUtilization
      + 10 < avgMem)) :
    (mkAdaptiveConcurrency opts cpuCount).currentConcurrency
        = (mkAdaptiveConcurrency opts cpuCount).maxConcurrency ∧
    (opts.maxConcurrency = none →
      (mkAdaptiveConcurrency opts cpuCount).currentConcurrency = cpuCount) ∧
    proposeConcurrency (mkAdaptiveConcurrency opts cpuCount).currentConcurrency
        (mkAdaptiveConcurrency opts cpuCount).adjustmentStep
        (mkAdaptiveConcurrency opts cpuCount).targetCpuUtilization
        (mkAdaptiveConcurrency opts cpuCount).targetMemoryUtilization
        avgCpu avgMem
      = (mkAdaptiveConcurrency opts cpuCount).maxConcurrency
        - (mkAdaptiveConcurrency opts cpuCount).adjustmentStep := by
  refine ⟨rfl, ?_, ?_⟩
  · intro h
    simp [mkAdaptiveConcurrency, jsOr, h]
  · unfold proposeConcurrency
    simp only [mkAdaptiveConcurrency] at hcpu hmem ⊢
    rw [if_pos hcpu, if_neg hmem]

/-- C10 witness: defaults (all options omitted) on an 8-CPU host with a
hot CPU sample average of 90 and memory average 50: the starting
recommendation is `max = 8` and the first downward proposal is `7`. -/
theorem C10_initial_recommendation_is_max_witness :
    ((mkAdaptiveConcurrency {} 8).targetCpuUtilization + 10 < 90) ∧
    ¬ ((mkAdaptiveConcurrency {} 8).targetMemoryUtilization + 10 < 50) ∧
    (mkAdaptiveConcurrency {} 8).currentConcurrency
      = (mkAdaptiveConcurrency {} 8).maxConcurrency ∧
    ((AdaptiveOptions.mk none none none none none).maxConcurrency = none →
      (mkAdaptiveConcurrency {} 8).currentConcurrency = 8) ∧
    proposeConcurrency (mkAdaptiveConcurrency {} 8).currentConcurrency
        (mkAdaptiveConcurrency {} 8).adjustmentStep
        (mkAdaptiveConcurrency {} 8).targetCpuUtilization
        (mkAdaptiveConcurrency {} 8).targetMemoryUtilization 90 50
      = (mkAdaptiveConcurrency {} 8).maxConcurrency
        - (mkAdaptiveConcurrency {} 8).adjustmentStep :=
  ⟨by norm_num [mkAdaptiveConcurrency, jsOr],
    by norm_num [mkAdaptiveConcurrency, jsOr],
    (C10_initial_recommendation_is_max {} 8 90 50
      (by norm_num [mkAdaptiveConcurrency, jsOr])
      (by norm_num [mkAdaptiveConcurrency, jsOr])).1,
    (C10_initial_recommendation_is_max {} 8 90 50
      (by norm_num [mkAdaptiveConcurrency, jsOr])
      (by norm_num [mkAdaptiveConcurrency, jsOr])).2.1,
    (C10_initial_recommendation_is_max {} 8 90 50
      (by norm_num [mkAdaptiveConcurrency, jsOr])
      (by norm_num [mkAdaptiveConcurrency, jsOr])).2.2⟩

/-! ## QueueManager (src/lib/queue-manager.js)

The scheduler state and its update functions.  Timestamps
(`stats.startTime`, `stats.endTime`) are wall-clock values irrelevant to
every claim and are omitted.  A dispatched task's continuation (the body
of the promise created in `_executeTask`) runs when the task settles;
`settleQM` models that continuation with the outcome supplied as a
boolean, so every `TaskFn` settles asynchronously, which is the source's
`await task.execute(task)` boundary.  A trace of the step relation
interleaves control-surface calls and task settlements in any order. -/

/-- Events emitted by the scheduler, with the payload parts the claims
mention (task ids and concurrency values). -/
inductive Event where
  | taskStart (id : TaskId)
  | taskComplete (id : TaskId)
  | taskError (id : TaskId)
  | queueComplete
  | concurrencyChanged (n : ℚ)
  | pausedEv
  | resumedEv
  | stoppedEv
deriving DecidableEq, Repr

/-- Scheduler state: the borrowed graph, the concurrency bound, the
`running` Map (key list; the stored promises are opaque), the ready
`queue`, counters, mode flags, and the emitted event sequence. -/
structure QMState where
  graph : TaskGraph
  concurrency : ℚ
  running : List TaskId
  queue : List TaskId
  statsCompleted : Nat
  statsFailed : Nat
  statsTotal : Nat
  isProcessing : Bool
  isPaused : Bool
  events : List Event
deriving DecidableEq, Repr

/-- `new QueueManager(taskGraph, options)` with the effective
concurrency bound (`options.concurrency || 4`) passed in normalised and
`autoStart` left to the caller (it merely calls `start()`). -/
def initQueueManager (g : TaskGraph) (concurrency : ℚ) : QMState :=
  { graph := g, concurrency := concurrency, running := [], queue := [],
    statsCompleted := 0, statsFailed := 0, statsTotal := 0,
    isProcessing := false, isPaused := false, events := [] }

/-- `_updateQueue()`: push every ready task that is neither already
queued (checked against the growing queue) nor running. -/
def updateQueueQM (s : QMState) : QMState :=
  { s with
    queue := s.graph.getReadyTasks.foldl
      (fun q id => if id ∈ q ∨ id ∈ s.running then q else q ++ [id])
      s.queue }

/-- The `while` loop of `_processQueue()`: pop the queue head and launch
it (emitting `task-start` and entering the `running` Map) while the
queue is non-empty and `running.size < concurrency`.  The first argument
is the current queue, which `processQueueQM` passes in and which every
iteration keeps equal to `s.queue` by construction, matching the
destructive `this.queue.shift()` of the source. -/
def drainList : List TaskId → QMState → QMState
  | [], s => s
  | taskId :: rest, s =>
    if (s.running.length : ℚ) < s.concurrency then
      drainList rest
        { s with queue := rest,
                 events := s.events ++ [Event.taskStart taskId],
                 running := s.running ++ [taskId] }
    else s

/-- `_processQueue()`: a no-op unless processing and not paused. -/
def processQueueQM (s : QMState) : QMState :=
  if s.isProcessing && !s.isPaused then drainList s.queue s else s

/-- `start()`: no-op when already processing; otherwise enter processing
mode, snapshot the total task count, seed the queue and dispatch. -/
def startQM (s : QMState) : QMState :=
  if s.isProcessing then s
  else
    processQueueQM (updateQueueQM
      { s with isProcessing := true, isPaused := false,
               statsTotal := s.graph.tasks.length })

/-- The settlement continuation of `_executeTask(taskId)` for a task in
the `running` Map: on fulfilment mark completed, bump the counter, emit
`task-complete` and, when the graph is complete, `queue-complete`; on
rejection bump `failed` and emit `task-error`; in both cases remove the
task from `running`, refresh the queue and dispatch again. -/
def settleQM (s : QMState) (taskId : TaskId) (ok : Bool) : QMState :=
  let s1 :=
    if ok then
      let s2 := { s with graph := (s.graph.markCompleted taskId).1,
                         statsCompleted := s.statsCompleted + 1 }
      let s3 := { s2 with events := s2.events ++ [Event.taskComplete taskId] }
      if s3.graph.isComplete then
        { s3 with events := s3.events ++ [Event.queueComplete] }
      else s3
    else
      { s with statsFailed := s.statsFailed + 1,
               events := s.events ++ [Event.taskError taskId] }
  processQueueQM (updateQueueQM { s1 with running := s1.running.erase taskId })

/-- `pause()`: inhibit new dispatches, emit `paused`. -/
def pauseQM (s : QMState) : QMState :=
  { s with isPaused := true, events := s.events ++ [Event.pausedEv] }

/-- `resume()`: behaves as `start()` unless currently processing and
paused; otherwise clear paused, dispatch, emit `resumed`. -/
def resumeQM (s : QMState) : QMState :=
  if !s.isProcessing || !s.isPaused then startQM s
  else
    let s1 := processQueueQM { s with isPaused := false }
    { s1 with events := s1.events ++ [Event.resumedEv] }

/-- `stop(waitForRunning)`: leave processing mode, drop the pending
queue, emit `stopped`.  Whether the call awaits in-flight tasks only
affects when its promise resolves, not the state. -/
def stopQM (s : QMState) : QMState :=
  { s with isProcessing := false, queue := [],
           events := s.events ++ [Event.stoppedEv] }

/-- The mutation part of `setConcurrency(n)` after validation: adopt the
bound, emit `concurrency-changed`, and dispatch immediately when
processing and not paused. -/
def setConcurrencyRun (s : QMState) (n : ℚ) : QMState :=
  let s1 := { s with concurrency := n,
                     events := s.events ++ [Event.concurrencyChanged n] }
  if s1.isProcessing && !s1.isPaused then processQueueQM s1 else s1

/-- A JS argument value as far as `typeof v === 'number'` can see it:
either a number (no NaN in the model) or anything else. -/
inductive JsVal where
  | num (q : ℚ)
  | notNum
deriving DecidableEq, Repr

/-- `typeof v === 'number'`. -/
def JsVal.isNum : JsVal → Bool
  | .num _ => true
  | .notNum => false

/-- Numeric value of a `JsVal`; the `notNum` case is never used behind
the `isNum` guard. -/
def JsVal.toQ : JsVal → ℚ
  | .num q => q
  | .notNum => 0

/-- `setConcurrency(concurrency)` (src/lib/queue-manager.js lines
103-117) with its validation: throws unless the argument is a number
that is at least 1. -/
def setConcurrencyQM (s : QMState) (v : JsVal) : QMState × Option GraphError :=
  if !v.isNum || v.toQ < 1 then (s, some .validation)
  else (setConcurrencyRun s v.toQ, none)

/-- One scheduler step: a control-surface call or the settlement of a
running task with either outcome.  `setConc` carries the validation
guard of `setConcurrency`, whose rejected calls do not change state. -/
inductive QMStep : QMState → QMState → Prop where
  | start (s : QMState) : QMStep s (startQM s)
  | pause (s : QMState) : QMStep s (pauseQM s)
  | resume (s : QMState) : QMStep s (resumeQM s)
  | stop (s : QMState) : QMStep s (stopQM s)
  | setConc (s : QMState) (n : ℚ) (h : 1 ≤ n) : QMStep s (setConcurrencyRun s n)
  | settle (s : QMState) (taskId : TaskId) (ok : Bool)
      (h : taskId ∈ s.running) : QMStep s (settleQM s taskId ok)

/-- States reachable by a run: the scheduler is constructed on graph `g`
with bound `concurrency` and then stepped arbitrarily. -/
def ReachableQM (g : TaskGraph) (concurrency : ℚ) (s : QMState) : Prop :=
  Relation.ReflTransGen QMStep (initQueueManager g concurrency) s

/-- Fields of the scheduler state that the dispatch loop never touches:
dispatching only moves ids from the queue to the running set and emits
`task-start` events. -/
theorem drainList_fields : ∀ (l : List TaskId) (s : QMState),
    (drainList l s).graph = s.graph ∧
    (drainList l s).concurrency = s.concurrency ∧
    (drainList l s).isProcessing = s.isProcessing ∧
    (drainList l s).isPaused = s.isPaused ∧
    (drainList l s).statsCompleted = s.statsCompleted ∧
    (drainList l s).statsFailed = s.statsFailed ∧
    (drainList l s).statsTotal = s.statsTotal
  | [], s => ⟨rfl, rfl, rfl, rfl, rfl, rfl, rfl⟩
  | taskId :: rest, s => by
    unfold drainList
    split
    · exact drainList_fields rest _
    · exact ⟨rfl, rfl, rfl, rfl, rfl, rfl, rfl⟩

/-- `_processQueue` never changes the concurrency bound. -/
theorem processQueueQM_concurrency (s : QMState) :
    (processQueueQM s).concurrency = s.concurrency := by
  unfold processQueueQM
  split
  · exact (drainList_fields s.queue s).2.1
  · rfl

/-- `setConcurrency` adopts the requested bound (the immediate dispatch
it triggers does not touch the bound). -/
theorem setConcurrencyRun_concurrency (s : QMState) (n : ℚ) :
    (setConcurrencyRun s n).concurrency = n := by
  unfold setConcurrencyRun
  dsimp only
  split
  · rw [processQueueQM_concurrency]
  · rfl

/-- State after `start()` on the S4 scenario (bound 4): `a` and `c`
dispatched. -/
def c2s1 : QMState := startQM (initQueueManager gS4 4)

/-- State after the `TaskFn` of `a` rejects. -/
def c2s2 : QMState := settleQM c2s1 0 false

/-- State after the `TaskFn` of `c` fulfils. -/
def c2s3 : QMState := settleQM c2s2 2 true

/-- State after the re-dispatched `a` rejects a second time. -/
def c2s4 : QMState := settleQM c2s3 0 false

/-- C2: the claim says a failed task is never dispatched again (exactly
one `task-start`), and the S4 run ends with stats
completed=1, failed=1, total=3.  In the code the failed task is never
marked completed, so `_updateQueue` finds it ready again the moment it
leaves the running set and `_processQueue` relaunches it: the event
trace of the S4 scenario contains `task-start(a)` again right after
`task-error(a)`, and every retry bumps `failed`.  The run never goes
quiescent (`a` is in the running set again after each settle).  `b` is
indeed never dispatched and no `queue-complete` is emitted. -/
theorem C2_failed_task_requeued_eval :
    ReachableQM gS4 4 c2s4 ∧
    c2s3.events = [Event.taskStart 0, Event.taskStart 2, Event.taskError 0,
      Event.taskStart 0, Event.taskComplete 2] ∧
    c2s3.events.count (Event.taskStart 0) = 2 ∧
    c2s4.events.count (Event.taskStart 0) = 3 ∧
    c2s4.statsFailed = 2 ∧
    c2s3.statsCompleted = 1 ∧ c2s3.statsFailed = 1 ∧ c2s3.statsTotal = 3 ∧
    Event.taskStart 1 ∉ c2s4.events ∧
    Event.queueComplete ∉ c2s4.events ∧
    0 ∈ c2s4.running := by
  refine ⟨?_, by decide, by decide, by decide, by decide, by decide,
    by decide, by decide, by decide, by decide, by decide⟩
  exact Relation.ReflTransGen.tail
    (Relation.ReflTransGen.tail
      (Relation.ReflTransGen.tail
        (Relation.ReflTransGen.single (QMStep.start _))
        (QMStep.settle _ 0 false (by decide)))
      (QMStep.settle _ 2 true (by decide)))
    (QMStep.settle _ 0 false (by decide))

/-- C7 counterexample: the claim says the running-set size never
exceeds the current bound under any interleaving including
`SetConcurrency` calls.  Start two independent tasks at bound 2, then
`setConcurrency(1)`: the reachable state has two running tasks and
bound 1. -/
theorem C7_bound_exceeded_counterexample :
    ReachableQM gAB 2 (setConcurrencyRun (startQM (initQueueManager gAB 2)) 1) ∧
    (setConcurrencyRun (startQM (initQueueManager gAB 2)) 1).concurrency
      < ((setConcurrencyRun (startQM
          (initQueueManager gAB 2)) 1).running.length : ℚ) := by
  refine ⟨?_, by decide⟩
  exact Relation.ReflTransGen.tail
    (Relation.ReflTransGen.single (QMStep.start _))
    (QMStep.setConc _ 1 le_rfl)

/-- C9 counterexample: the claim says `SetConcurrency` rejects every
value that is not a positive integer, naming 1.5.  The code's check is
`typeof n !== 'number' || n < 1`, so `setConcurrency(1.5)` succeeds and
the bound becomes 1.5, which is not an integer. -/
theorem C9_non_integer_accepted_counterexample :
    (setConcurrencyQM (initQueueManager gAB 4) (JsVal.num (3 / 2))).2 = none ∧
    (setConcurrencyQM (initQueueManager gAB 4)
      (JsVal.num (3 / 2))).1.concurrency = 3 / 2 ∧
    ¬ ∃ n : ℤ, ((3 : ℚ) / 2) = n := by
  refine ⟨?_, ?_, ?_⟩
  · norm_num [setConcurrencyQM, JsVal.isNum, JsVal.toQ]
  · norm_num [setConcurrencyQM, JsVal.isNum, JsVal.toQ,
      setConcurrencyRun_concurrency]
  · rintro ⟨n, hn⟩
    have h2 : (2 : ℚ) * n = 3 := by rw [← hn]; ring
    have h3 : (2 * n : ℤ) = 3 := by exact_mod_cast h2
    omega

/-- C9 amended: `setConcurrency(n)` raises `ValidationError` iff `n` is
not a number or `n < 1` — so 0, negatives and non-numbers are rejected,
but every number `≥ 1` is accepted, integer or not; a rejected call
leaves the whole scheduler state unchanged, and an accepted call makes
the bound exactly `n`. -/
theorem C9_amended_validation (s : QMState) (v : JsVal) :
    ((setConcurrencyQM s v).2 = some GraphError.validation ↔
      (v.isNum = false ∨ v.toQ < 1)) ∧
    ((setConcurrencyQM s v).2.isSome → (setConcurrencyQM s v).1 = s) ∧
    ((setConcurrencyQM s v).2 = none →
      (setConcurrencyQM s v).1.concurrency = v.toQ) := by
  unfold setConcurrencyQM
  by_cases h1 : v.isNum = false
  · simp [h1]
  · have h1' : v.isNum = true := by
      cases hv : v.isNum
      · exact absurd hv h1
      · rfl
    by_cases h2 : v.toQ < 1
    · simp [h1', h2]
    · simp [h1', h2, setConcurrencyRun_concurrency]

/-- C9 amended witness: `setConcurrency(0)` is rejected and leaves the
state unchanged, by the amended validation rule. -/
theorem C9_amended_validation_witness :
    (setConcurrencyQM (initQueueManager gAB 4) (JsVal.num 0)).2.isSome = true ∧
    (setConcurrencyQM (initQueueManager gAB 4) (JsVal.num 0)).1
      = initQueueManager gAB 4 :=
  ⟨by decide, (C9_amended_validation (initQueueManager gAB 4)
    (JsVal.num 0)).2.1 (by decide)⟩

/-! ## Trace invariants of the scheduler

The claims about event ordering (C6) and the concurrency bound (C7) are
settled through an inductive invariant over `ReachableQM`.  The
invariant speaks only about the graph, the queue, the running set and
the event trace, so control-flag updates preserve it for free. -/

/-- Index lookup in a list extended by one element. -/
theorem getElem?_concat_cases {α : Type} {l : List α} {e a : α} {i : Nat}
    (h : (l ++ [e])[i]? = some a) : l[i]? = some a ∨ (i = l.length ∧ a = e) := by
  rcases Nat.lt_trichotomy i l.length with hi | hi | hi
  · left
    rw [List.getElem?_append_left hi] at h
    exact h
  · right
    subst hi
    rw [List.getElem?_concat_length] at h
    exact ⟨rfl, (Option.some_inj.mp h).symm⟩
  · exfalso
    have hlen : (l ++ [e]).length ≤ i := by
      simp only [List.length_append, List.length_singleton]
      omega
    rw [List.getElem?_eq_none_iff.mpr hlen] at h
    cases h

/-- A successful index lookup survives appending on the right. -/
theorem getElem?_append_some {α : Type} {l : List α} {a : α} {j : Nat}
    (l' : List α) (h : l[j]? = some a) : (l ++ l')[j]? = some a := by
  have hj : j < l.length := (List.getElem?_eq_some.mp h).1
  rw [List.getElem?_append_left hj]
  exact h

/-- A successful index lookup implies membership. -/
theorem mem_of_getElem?_eq_some {α : Type} {l : List α} {a : α} {i : Nat}
    (h : l[i]? = some a) : a ∈ l := by
  obtain ⟨hi, hv⟩ := List.getElem?_eq_some.mp h
  exact hv ▸ List.getElem_mem hi

/-- A duplicate-free list whose members all equal `a` and which contains
`a` is `[a]`. -/
theorem eq_singleton_of_all_eq {l : List TaskId} {a : TaskId}
    (hn : l.Nodup) (hm : a ∈ l) (hall : ∀ x ∈ l, x = a) : l = [a] := by
  cases l with
  | nil => cases hm
  | cons b t =>
    have hb : b = a := hall b (List.mem_cons_self b t)
    subst hb
    have ht : t = [] := by
      rw [List.eq_nil_iff_forall_not_mem]
      intro x hx
      have hxb : x = b := hall x (List.mem_cons_of_mem b hx)
      subst hxb
      exact (List.nodup_cons.mp hn).1 hx
    rw [ht]

/-- A duplicate-free sublist of `tasks` with the same length contains
every task. -/
theorem completed_full_of_length_eq {comp tasks : List TaskId}
    (hn : comp.Nodup) (hsub : ∀ x ∈ comp, x ∈ tasks)
    (hlen : comp.length = tasks.length) : ∀ t ∈ tasks, t ∈ comp := by
  have hsp : List.Subperm comp tasks := hn.subperm (fun x hx => hsub x hx)
  have hperm : comp.Perm tasks := hsp.perm_of_length_le (le_of_eq hlen.symm)
  intro t ht
  exact hperm.mem_iff.mpr ht

/-- Membership in the ready list. -/
theorem mem_getReadyTasks {g : TaskGraph} {id : TaskId} :
    id ∈ g.getReadyTasks ↔
      id ∈ g.tasks ∧ id ∉ g.completed ∧
        ∀ x ∈ assocGet g.dependencies id, x ∈ g.completed := by
  simp [TaskGraph.getReadyTasks, List.mem_filter, decide_eq_true_eq,
    and_assoc]

/-- When every task is completed, nothing is ready. -/
theorem getReadyTasks_eq_nil {g : TaskGraph}
    (hall : ∀ t ∈ g.tasks, t ∈ g.completed) : g.getReadyTasks = [] := by
  rw [List.eq_nil_iff_forall_not_mem]
  intro id hid
  obtain ⟨h1, h2, -⟩ := mem_getReadyTasks.mp hid
  exact h2 (hall id h1)

/-- Every member of the queue produced by the `_updateQueue` fold was
already queued or is a ready task that is not running. -/
theorem updFold_mem (running : List TaskId) :
    ∀ (l q : List TaskId) (id : TaskId),
      id ∈ l.foldl
        (fun acc i => if i ∈ acc ∨ i ∈ running then acc else acc ++ [i]) q →
      id ∈ q ∨ (id ∈ l ∧ id ∉ running)
  | [], _, _, h => Or.inl h
  | i :: t, q, id, h => by
    simp only [List.foldl_cons] at h
    by_cases hc : i ∈ q ∨ i ∈ running
    · rw [if_pos hc] at h
      rcases updFold_mem running t q id h with h1 | h1
      · exact Or.inl h1
      · exact Or.inr ⟨List.mem_cons_of_mem _ h1.1, h1.2⟩
    · rw [if_neg hc] at h
      rcases updFold_mem running t (q ++ [i]) id h with h1 | h1
      · rcases List.mem_append.mp h1 with h2 | h2
        · exact Or.inl h2
        · have hii : id = i := by simpa using h2
          subst hii
          exact Or.inr ⟨List.mem_cons_self _ _, fun hr => hc (Or.inr hr)⟩
      · exact Or.inr ⟨List.mem_cons_of_mem _ h1.1, h1.2⟩

/-- The `_updateQueue` fold keeps the queue duplicate-free. -/
theorem updFold_nodup (running : List TaskId) :
    ∀ (l q : List TaskId), q.Nodup →
      (l.foldl
        (fun acc i => if i ∈ acc ∨ i ∈ running then acc else acc ++ [i])
        q).Nodup
  | [], _, h => h
  | i :: t, q, h => by
    simp only [List.foldl_cons]
    by_cases hc : i ∈ q ∨ i ∈ running
    · rw [if_pos hc]
      exact updFold_nodup running t q h
    · rw [if_neg hc]
      refine updFold_nodup running t (q ++ [i]) ?_
      have hi : i ∉ q := fun hq => hc (Or.inl hq)
      simp [List.nodup_append, h, hi]

/-- The inductive invariant of the scheduler, over the graph, the ready
queue, the running set and the event trace.  The queue and running set
are duplicate-free and disjoint, hold only registered, uncompleted
tasks, queued tasks have all dependencies completed, every completed
task has a `task-complete` event, every `task-start` is preceded by the
`task-complete` of each dependency, and once `queue-complete` is emitted
the scheduler is quiescent with the whole graph completed. -/
structure InvC (g : TaskGraph) (q r : List TaskId) (evs : List Event) :
    Prop where
  tasksNodup : g.tasks.Nodup
  completedNodup : g.completed.Nodup
  completedTasks : ∀ x ∈ g.completed, x ∈ g.tasks
  queueNodup : q.Nodup
  runningNodup : r.Nodup
  queueRunning : ∀ id ∈ q, id ∉ r
  queueTasks : ∀ id ∈ q, id ∈ g.tasks
  runningTasks : ∀ id ∈ r, id ∈ g.tasks
  queueNotDone : ∀ id ∈ q, id ∉ g.completed
  runningNotDone : ∀ id ∈ r, id ∉ g.completed
  queueReady : ∀ id ∈ q, ∀ x ∈ assocGet g.dependencies id, x ∈ g.completed
  doneEvents : ∀ x ∈ g.completed,
    ∃ j : Nat, evs[j]? = some (Event.taskComplete x)
  ordStart : ∀ (i : Nat) (y : TaskId),
    evs[i]? = some (Event.taskStart y) →
    ∀ x ∈ assocGet g.dependencies y,
      ∃ j < i, evs[j]? = some (Event.taskComplete x)
  qcQuiescent : Event.queueComplete ∈ evs →
    r = [] ∧ q = [] ∧ ∀ t ∈ g.tasks, t ∈ g.completed
  qcUnique : ∀ i j : Nat, evs[i]? = some Event.queueComplete →
    evs[j]? = some Event.queueComplete → i = j
  qcLast : ∀ (i j : Nat) (x : TaskId),
    evs[i]? = some Event.queueComplete →
    (evs[j]? = some (Event.taskComplete x) ∨
      evs[j]? = some (Event.taskError x)) → j < i

/-- The invariant, read off a scheduler state. -/
def QMInv (s : QMState) : Prop :=
  InvC s.graph s.queue s.running s.events

/-- Appending an event that is neither a task event nor
`queue-complete` preserves the invariant. -/
theorem invC_append_other {g : TaskGraph} {q r : List TaskId}
    {evs : List Event} {e : Event}
    (hstart : ∀ id, e ≠ Event.taskStart id)
    (hcomp : ∀ id, e ≠ Event.taskComplete id)
    (herr : ∀ id, e ≠ Event.taskError id)
    (hqc : e ≠ Event.queueComplete)
    (h : InvC g q r evs) : InvC g q r (evs ++ [e]) where
  tasksNodup := h.tasksNodup
  completedNodup := h.completedNodup
  completedTasks := h.completedTasks
  queueNodup := h.queueNodup
  runningNodup := h.runningNodup
  queueRunning := h.queueRunning
  queueTasks := h.queueTasks
  runningTasks := h.runningTasks
  queueNotDone := h.queueNotDone
  runningNotDone := h.runningNotDone
  queueReady := h.queueReady
  doneEvents := fun x hx => by
    obtain ⟨j, hj⟩ := h.doneEvents x hx
    exact ⟨j, getElem?_append_some [e] hj⟩
  ordStart := fun i y hi x hx => by
    rcases getElem?_concat_cases hi with hc | ⟨-, hc⟩
    · obtain ⟨j, hji, hj⟩ := h.ordStart i y hc x hx
      exact ⟨j, hji, getElem?_append_some [e] hj⟩
    · exact absurd hc.symm (hstart y)
  qcQuiescent := fun hm => by
    rcases List.mem_append.mp hm with hm | hm
    · exact h.qcQuiescent hm
    · exact absurd (List.mem_singleton.mp hm).symm hqc
  qcUnique := fun i j hi hj => by
    rcases getElem?_concat_cases hi with hci | ⟨-, hci⟩
    · rcases getElem?_concat_cases hj with hcj | ⟨-, hcj⟩
      · exact h.qcUnique i j hci hcj
      · exact absurd hcj.symm hqc
    · exact absurd hci.symm hqc
  qcLast := fun i j x hi hj => by
    rcases getElem?_concat_cases hi with hci | ⟨-, hci⟩
    · rcases hj with hj | hj
      · rcases getElem?_concat_cases hj with hcj | ⟨-, hcj⟩
        · exact h.qcLast i j x hci (Or.inl hcj)
        · exact absurd hcj.symm (hcomp x)
      · rcases getElem?_concat_cases hj with hcj | ⟨-, hcj⟩
        · exact h.qcLast i j x hci (Or.inr hcj)
        · exact absurd hcj.symm (herr x)
    · exact absurd hci.symm hqc

/-- When a task is in the running set, `queue-complete` cannot be in
the trace. -/
theorem invC_no_qc_of_running {g : TaskGraph} {q r : List TaskId}
    {evs : List Event} {taskId : TaskId}
    (h : InvC g q r evs) (hm : taskId ∈ r) :
    Event.queueComplete ∉ evs := fun hqc => by
  have := (h.qcQuiescent hqc).1
  rw [this] at hm
  cases hm

/-- When the queue is non-empty, `queue-complete` cannot be in the
trace. -/
theorem invC_no_qc_of_queue {g : TaskGraph} {q r : List TaskId}
    {evs : List Event} {taskId : TaskId} {rest : List TaskId}
    (h : InvC g q r evs) (hq : q = taskId :: rest) :
    Event.queueComplete ∉ evs := fun hqc => by
  have := (h.qcQuiescent hqc).2.1
  rw [this] at hq
  cases hq

/-- Dispatching the queue head (one iteration of the `_processQueue`
loop) preserves the invariant. -/
theorem invC_dispatch {g : TaskGraph} {q r : List TaskId}
    {evs : List Event} {taskId : TaskId} {rest : List TaskId}
    (hq : q = taskId :: rest) (h : InvC g q r evs) :
    InvC g rest (r ++ [taskId]) (evs ++ [Event.taskStart taskId]) where
  tasksNodup := h.tasksNodup
  completedNodup := h.completedNodup
  completedTasks := h.completedTasks
  queueNodup := by
    have := h.queueNodup
    rw [hq] at this
    exact (List.nodup_cons.mp this).2
  runningNodup := by
    have hnr : taskId ∉ r := h.queueRunning taskId (hq ▸ List.mem_cons_self _ _)
    simp [List.nodup_append, h.runningNodup, hnr]
  queueRunning := fun id hid => by
    have hidq : id ∈ q := hq ▸ List.mem_cons_of_mem _ hid
    have h1 : id ∉ r := h.queueRunning id hidq
    have h2 : id ≠ taskId := by
      intro he
      subst he
      have := h.queueNodup
      rw [hq] at this
      exact (List.nodup_cons.mp this).1 hid
    simp [List.mem_append, h1, h2]
  queueTasks := fun id hid =>
    h.queueTasks id (hq ▸ List.mem_cons_of_mem _ hid)
  runningTasks := fun id hid => by
    rcases List.mem_append.mp hid with h1 | h1
    · exact h.runningTasks id h1
    · have : id = taskId := List.mem_singleton.mp h1
      subst this
      exact h.queueTasks id (hq ▸ List.mem_cons_self _ _)
  queueNotDone := fun id hid =>
    h.queueNotDone id (hq ▸ List.mem_cons_of_mem _ hid)
  runningNotDone := fun id hid => by
    rcases List.mem_append.mp hid with h1 | h1
    · exact h.runningNotDone id h1
    · have : id = taskId := List.mem_singleton.mp h1
      subst this
      exact h.queueNotDone id (hq ▸ List.mem_cons_self _ _)
  queueReady := fun id hid =>
    h.queueReady id (hq ▸ List.mem_cons_of_mem _ hid)
  doneEvents := fun x hx => by
    obtain ⟨j, hj⟩ := h.doneEvents x hx
    exact ⟨j, getElem?_append_some _ hj⟩
  ordStart := fun i y hi x hx => by
    rcases getElem?_concat_cases hi with hc | ⟨hil, hc⟩
    · obtain ⟨j, hji, hj⟩ := h.ordStart i y hc x hx
      exact ⟨j, hji, getElem?_append_some _ hj⟩
    · have hy : y = taskId := by
        cases hc
        rfl
      subst hy
      have hxc : x ∈ g.completed :=
        h.queueReady y (hq ▸ List.mem_cons_self _ _) x hx
      obtain ⟨j, hj⟩ := h.doneEvents x hxc
      have hjl : j < evs.length := (List.getElem?_eq_some.mp hj).1
      exact ⟨j, hil ▸ hjl, getElem?_append_some _ hj⟩
  qcQuiescent := fun hm => by
    rcases List.mem_append.mp hm with hm | hm
    · exact absurd hm (invC_no_qc_of_queue h hq)
    · cases List.mem_singleton.mp hm
  qcUnique := fun i j hi hj => by
    rcases getElem?_concat_cases hi with hci | ⟨-, hci⟩
    · exact absurd (mem_of_getElem?_eq_some hci) (invC_no_qc_of_queue h hq)
    · cases hci
  qcLast := fun i j x hi hj => by
    rcases getElem?_concat_cases hi with hci | ⟨-, hci⟩
    · exact absurd (mem_of_getElem?_eq_some hci) (invC_no_qc_of_queue h hq)
    · cases hci

/-- `markCompleted` on a registered, not-yet-completed id appends it to
the completion set. -/
theorem markCompleted_spec (g : TaskGraph) (id : TaskId)
    (hin : id ∈ g.tasks) (hnot : id ∉ g.completed) :
    (g.markCompleted id).1 = { g with completed := g.completed ++ [id] } := by
  unfold TaskGraph.markCompleted
  rw [if_pos hin, if_neg hnot]

/-- Removing a task from the running set preserves the invariant. -/
theorem invC_running_erase {g : TaskGraph} {q r : List TaskId}
    {evs : List Event} (taskId : TaskId) (h : InvC g q r evs) :
    InvC g q (r.erase taskId) evs where
  tasksNodup := h.tasksNodup
  completedNodup := h.completedNodup
  completedTasks := h.completedTasks
  queueNodup := h.queueNodup
  runningNodup := h.runningNodup.erase taskId
  queueRunning := fun id hid hmem =>
    h.queueRunning id hid (List.mem_of_mem_erase hmem)
  queueTasks := h.queueTasks
  runningTasks := fun id hid => h.runningTasks id (List.mem_of_mem_erase hid)
  queueNotDone := h.queueNotDone
  runningNotDone := fun id hid =>
    h.runningNotDone id (List.mem_of_mem_erase hid)
  queueReady := h.queueReady
  doneEvents := h.doneEvents
  ordStart := h.ordStart
  qcQuiescent := fun hm => by
    obtain ⟨hr, hq, hall⟩ := h.qcQuiescent hm
    exact ⟨by rw [hr]; rfl, hq, hall⟩
  qcUnique := h.qcUnique
  qcLast := h.qcLast

/-- Emitting `task-error` for a running task preserves the invariant
(the completion set does not change). -/
theorem invC_append_error {g : TaskGraph} {q r : List TaskId}
    {evs : List Event} {taskId : TaskId}
    (hrun : taskId ∈ r) (h : InvC g q r evs) :
    InvC g q r (evs ++ [Event.taskError taskId]) where
  tasksNodup := h.tasksNodup
  completedNodup := h.completedNodup
  completedTasks := h.completedTasks
  queueNodup := h.queueNodup
  runningNodup := h.runningNodup
  queueRunning := h.queueRunning
  queueTasks := h.queueTasks
  runningTasks := h.runningTasks
  queueNotDone := h.queueNotDone
  runningNotDone := h.runningNotDone
  queueReady := h.queueReady
  doneEvents := fun x hx => by
    obtain ⟨j, hj⟩ := h.doneEvents x hx
    exact ⟨j, getElem?_append_some _ hj⟩
  ordStart := fun i y hi x hx => by
    rcases getElem?_concat_cases hi with hc | ⟨-, hc⟩
    · obtain ⟨j, hji, hj⟩ := h.ordStart i y hc x hx
      exact ⟨j, hji, getElem?_append_some _ hj⟩
    · exact Event.noConfusion hc
  qcQuiescent := fun hm => by
    rcases List.mem_append.mp hm with hm | hm
    · exact absurd hm (invC_no_qc_of_running h hrun)
    · exact Event.noConfusion (List.mem_singleton.mp hm)
  qcUnique := fun i j hi hj => by
    rcases getElem?_concat_cases hi with hci | ⟨-, hci⟩
    · exact absurd (mem_of_getElem?_eq_some hci)
        (invC_no_qc_of_running h hrun)
    · exact Event.noConfusion hci
  qcLast := fun i j x hi hj => by
    rcases getElem?_concat_cases hi with hci | ⟨-, hci⟩
    · exact absurd (mem_of_getElem?_eq_some hci)
        (invC_no_qc_of_running h hrun)
    · exact Event.noConfusion hci

/-- Marking a running task completed, emitting `task-complete` and
removing it from the running set preserves the invariant. -/
theorem invC_complete {g : TaskGraph} {q r : List TaskId}
    {evs : List Event} {taskId : TaskId}
    (hrun : taskId ∈ r) (h : InvC g q r evs) :
    InvC { g with completed := g.completed ++ [taskId] } q
      (r.erase taskId) (evs ++ [Event.taskComplete taskId]) where
  tasksNodup := h.tasksNodup
  completedNodup := by
    have hnot : taskId ∉ g.completed := h.runningNotDone taskId hrun
    simp [List.nodup_append, h.completedNodup, hnot]
  completedTasks := fun x hx => by
    rcases List.mem_append.mp hx with h1 | h1
    · exact h.completedTasks x h1
    · have : x = taskId := List.mem_singleton.mp h1
      subst this
      exact h.runningTasks x hrun
  queueNodup := h.queueNodup
  runningNodup := h.runningNodup.erase taskId
  queueRunning := fun id hid hmem =>
    h.queueRunning id hid (List.mem_of_mem_erase hmem)
  queueTasks := h.queueTasks
  runningTasks := fun id hid => h.runningTasks id (List.mem_of_mem_erase hid)
  queueNotDone := fun id hid hmem => by
    rcases List.mem_append.mp hmem with h1 | h1
    · exact h.queueNotDone id hid h1
    · have : id = taskId := List.mem_singleton.mp h1
      subst this
      exact h.queueRunning id hid hrun
  runningNotDone := fun id hid hmem => by
    have hne : id ≠ taskId ∧ id ∈ r :=
      (h.runningNodup.mem_erase_iff).mp hid
    rcases List.mem_append.mp hmem with h1 | h1
    · exact h.runningNotDone id hne.2 h1
    · exact hne.1 (List.mem_singleton.mp h1)
  queueReady := fun id hid x hx =>
    List.mem_append.mpr (Or.inl (h.queueReady id hid x hx))
  doneEvents := fun x hx => by
    rcases List.mem_append.mp hx with h1 | h1
    · obtain ⟨j, hj⟩ := h.doneEvents x h1
      exact ⟨j, getElem?_append_some _ hj⟩
    · have : x = taskId := List.mem_singleton.mp h1
      subst this
      exact ⟨evs.length, List.getElem?_concat_length _ _⟩
  ordStart := fun i y hi x hx => by
    rcases getElem?_concat_cases hi with hc | ⟨-, hc⟩
    · obtain ⟨j, hji, hj⟩ := h.ordStart i y hc x hx
      exact ⟨j, hji, getElem?_append_some _ hj⟩
    · exact Event.noConfusion hc
  qcQuiescent := fun hm => by
    rcases List.mem_append.mp hm with hm | hm
    · exact absurd hm (invC_no_qc_of_running h hrun)
    · exact Event.noConfusion (List.mem_singleton.mp hm)
  qcUnique := fun i j hi hj => by
    rcases getElem?_concat_cases hi with hci | ⟨-, hci⟩
    · exact absurd (mem_of_getElem?_eq_some hci)
        (invC_no_qc_of_running h hrun)
    · exact Event.noConfusion hci
  qcLast := fun i j x hi hj => by
    rcases getElem?_concat_cases hi with hci | ⟨-, hci⟩
    · exact absurd (mem_of_getElem?_eq_some hci)
        (invC_no_qc_of_running h hrun)
    · exact Event.noConfusion hci

/-- When the completion set reaches the task count, the settling task
was the last unfinished one: emitting `task-complete` followed by
`queue-complete` yields a quiescent, fully completed state and the
`queue-complete` event sits strictly after every task event, exactly
once. -/
theorem invC_complete_qc {g : TaskGraph} {q r : List TaskId}
    {evs : List Event} {taskId : TaskId}
    (hrun : taskId ∈ r) (h : InvC g q r evs)
    (hlen : (g.completed ++ [taskId]).length = g.tasks.length) :
    InvC { g with completed := g.completed ++ [taskId] } q
      (r.erase taskId)
      ((evs ++ [Event.taskComplete taskId]) ++ [Event.queueComplete]) := by
  have h1 : InvC { g with completed := g.completed ++ [taskId] } q
      (r.erase taskId) (evs ++ [Event.taskComplete taskId]) :=
    invC_complete hrun h
  have hall : ∀ t ∈ g.tasks, t ∈ g.completed ++ [taskId] :=
    completed_full_of_length_eq h1.completedNodup h1.completedTasks hlen
  have hrone : r = [taskId] := by
    refine eq_singleton_of_all_eq h.runningNodup hrun (fun x hx => ?_)
    rcases List.mem_append.mp (hall x (h.runningTasks x hx)) with h2 | h2
    · exact absurd h2 (h.runningNotDone x hx)
    · exact List.mem_singleton.mp h2
  have hrnil : r.erase taskId = [] := by
    rw [hrone, List.erase_cons_head]
  have hqnil : q = [] := by
    rw [List.eq_nil_iff_forall_not_mem]
    intro id hid
    rcases List.mem_append.mp (hall id (h.queueTasks id hid)) with h2 | h2
    · exact h.queueNotDone id hid h2
    · exact h.queueRunning id hid
        ((List.mem_singleton.mp h2) ▸ hrun)
  have hnoqc1 : Event.queueComplete ∉ evs ++ [Event.taskComplete taskId] := by
    intro hm
    rcases List.mem_append.mp hm with hm | hm
    · exact invC_no_qc_of_running h hrun hm
    · exact Event.noConfusion (List.mem_singleton.mp hm)
  refine
    { tasksNodup := h1.tasksNodup
      completedNodup := h1.completedNodup
      completedTasks := h1.completedTasks
      queueNodup := h1.queueNodup
      runningNodup := h1.runningNodup
      queueRunning := h1.queueRunning
      queueTasks := h1.queueTasks
      runningTasks := h1.runningTasks
      queueNotDone := h1.queueNotDone
      runningNotDone := h1.runningNotDone
      queueReady := h1.queueReady
      doneEvents := fun x hx => ?_
      ordStart := fun i y hi x hx => ?_
      qcQuiescent := fun _ => ⟨hrnil, hqnil, hall⟩
      qcUnique := fun i j hi hj => ?_
      qcLast := fun i j x hi hj => ?_ }
  · obtain ⟨j, hj⟩ := h1.doneEvents x hx
    exact ⟨j, getElem?_append_some _ hj⟩
  · rcases getElem?_concat_cases hi with hc | ⟨-, hc⟩
    · obtain ⟨j, hji, hj⟩ := h1.ordStart i y hc x hx
      exact ⟨j, hji, getElem?_append_some _ hj⟩
    · exact Event.noConfusion hc
  · rcases getElem?_concat_cases hi with hci | ⟨hci, -⟩
    · exact absurd (mem_of_getElem?_eq_some hci) hnoqc1
    · rcases getElem?_concat_cases hj with hcj | ⟨hcj, -⟩
      · exact absurd (mem_of_getElem?_eq_some hcj) hnoqc1
      · rw [hci, hcj]
  · rcases getElem?_concat_cases hi with hci | ⟨hci, -⟩
    · exact absurd (mem_of_getElem?_eq_some hci) hnoqc1
    · rcases hj with hj | hj
      · rcases getElem?_concat_cases hj with hcj | ⟨-, hcj⟩
        · have : j < (evs ++ [Event.taskComplete taskId]).length :=
            (List.getElem?_eq_some.mp hcj).1
          omega
        · exact Event.noConfusion hcj
      · rcases getElem?_concat_cases hj with hcj | ⟨-, hcj⟩
        · have : j < (evs ++ [Event.taskComplete taskId]).length :=
            (List.getElem?_eq_some.mp hcj).1
          omega
        · exact Event.noConfusion hcj

/-- `_updateQueue` preserves the invariant: it only adds ready,
unqueued, not-running tasks to the queue. -/
theorem qminv_updateQueue (s : QMState) (h : QMInv s) :
    QMInv (updateQueueQM s) := by
  show InvC s.graph (updateQueueQM s).queue s.running s.events
  have hmem : ∀ id ∈ (updateQueueQM s).queue,
      id ∈ s.queue ∨ (id ∈ s.graph.getReadyTasks ∧ id ∉ s.running) :=
    fun id hid => updFold_mem s.running _ s.queue id hid
  refine
    { tasksNodup := h.tasksNodup
      completedNodup := h.completedNodup
      completedTasks := h.completedTasks
      queueNodup := updFold_nodup s.running _ s.queue h.queueNodup
      runningNodup := h.runningNodup
      queueRunning := fun id hid => ?_
      queueTasks := fun id hid => ?_
      runningTasks := h.runningTasks
      queueNotDone := fun id hid => ?_
      runningNotDone := h.runningNotDone
      queueReady := fun id hid => ?_
      doneEvents := h.doneEvents
      ordStart := h.ordStart
      qcQuiescent := fun hm => ?_
      qcUnique := h.qcUnique
      qcLast := h.qcLast }
  · rcases hmem id hid with h1 | h1
    · exact h.queueRunning id h1
    · exact h1.2
  · rcases hmem id hid with h1 | h1
    · exact h.queueTasks id h1
    · exact (mem_getReadyTasks.mp h1.1).1
  · rcases hmem id hid with h1 | h1
    · exact h.queueNotDone id h1
    · exact (mem_getReadyTasks.mp h1.1).2.1
  · rcases hmem id hid with h1 | h1
    · exact h.queueReady id h1
    · exact (mem_getReadyTasks.mp h1.1).2.2
  · obtain ⟨hr, hq, hall⟩ := h.qcQuiescent hm
    refine ⟨hr, ?_, hall⟩
    show List.foldl _ s.queue s.graph.getReadyTasks = []
    rw [hq, getReadyTasks_eq_nil hall]
    rfl

/-- The dispatch loop preserves the invariant when its list argument is
the current queue (which `processQueueQM` guarantees). -/
theorem qminv_drainList : ∀ (l : List TaskId) (s : QMState),
    s.queue = l → QMInv s → QMInv (drainList l s)
  | [], _, _, h => h
  | taskId :: rest, s, hq, h => by
    unfold drainList
    split
    · refine qminv_drainList rest _ rfl ?_
      show InvC s.graph rest (s.running ++ [taskId])
        (s.events ++ [Event.taskStart taskId])
      have h' : InvC s.graph (taskId :: rest) s.running s.events := by
        rw [← hq]
        exact h
      exact invC_dispatch rfl h'
    · exact h

/-- `_processQueue` preserves the invariant. -/
theorem qminv_processQueue (s : QMState) (h : QMInv s) :
    QMInv (processQueueQM s) := by
  unfold processQueueQM
  split
  · exact qminv_drainList s.queue s rfl h
  · exact h

/-- `start()` preserves the invariant. -/
theorem qminv_startQM (s : QMState) (h : QMInv s) : QMInv (startQM s) := by
  unfold startQM
  split
  · exact h
  · refine qminv_processQueue _ (qminv_updateQueue _ ?_)
    exact h

/-- Settling a running task preserves the invariant. -/
theorem qminv_settle (s : QMState) (taskId : TaskId) (ok : Bool)
    (hrun : taskId ∈ s.running) (h : QMInv s) :
    QMInv (settleQM s taskId ok) := by
  unfold settleQM
  cases ok with
  | false =>
    dsimp only
    refine qminv_processQueue _ (qminv_updateQueue _ ?_)
    show InvC s.graph s.queue (s.running.erase taskId)
      (s.events ++ [Event.taskError taskId])
    exact invC_running_erase taskId (invC_append_error hrun h)
  | true =>
    dsimp only
    rw [markCompleted_spec s.graph taskId
      (h.runningTasks taskId hrun) (h.runningNotDone taskId hrun)]
    by_cases hcpl :
        (TaskGraph.isComplete
          { s.graph with completed := s.graph.completed ++ [taskId] }) = true
    · rw [if_pos hcpl]
      refine qminv_processQueue _ (qminv_updateQueue _ ?_)
      show InvC { s.graph with completed := s.graph.completed ++ [taskId] }
        s.queue (s.running.erase taskId)
        ((s.events ++ [Event.taskComplete taskId]) ++ [Event.queueComplete])
      have hlen : (s.graph.completed ++ [taskId]).length
          = s.graph.tasks.length := by
        have h2 : ((s.graph.completed ++ [taskId]).length
            == s.graph.tasks.length) = true := hcpl
        exact eq_of_beq h2
      exact invC_complete_qc hrun h hlen
    · rw [if_neg hcpl]
      refine qminv_processQueue _ (qminv_updateQueue _ ?_)
      show InvC { s.graph with completed := s.graph.completed ++ [taskId] }
        s.queue (s.running.erase taskId)
        (s.events ++ [Event.taskComplete taskId])
      exact invC_complete hrun h

/-- Every scheduler step preserves the invariant. -/
theorem qminv_step {s s' : QMState} (hstep : QMStep s s') (h : QMInv s) :
    QMInv s' := by
  cases hstep with
  | start => exact qminv_startQM s h
  | pause =>
    show InvC s.graph s.queue s.running (s.events ++ [Event.pausedEv])
    exact invC_append_other (fun _ => Event.noConfusion)
      (fun _ => Event.noConfusion) (fun _ => Event.noConfusion)
      Event.noConfusion h
  | resume =>
    unfold resumeQM
    split
    · exact qminv_startQM s h
    · have h1 : QMInv (processQueueQM { s with isPaused := false }) :=
        qminv_processQueue _ h
      show InvC _ _ _ (_ ++ [Event.resumedEv])
      exact invC_append_other (fun _ => Event.noConfusion)
        (fun _ => Event.noConfusion) (fun _ => Event.noConfusion)
        Event.noConfusion h1
  | stop =>
    show InvC s.graph [] s.running (s.events ++ [Event.stoppedEv])
    have h1 : InvC s.graph s.queue s.running
        (s.events ++ [Event.stoppedEv]) :=
      invC_append_other (fun _ => Event.noConfusion)
        (fun _ => Event.noConfusion) (fun _ => Event.noConfusion)
        Event.noConfusion h
    exact
      { tasksNodup := h1.tasksNodup
        completedNodup := h1.completedNodup
        completedTasks := h1.completedTasks
        queueNodup := List.nodup_nil
        runningNodup := h1.runningNodup
        queueRunning := fun id hid => absurd hid (List.not_mem_nil id)
        queueTasks := fun id hid => absurd hid (List.not_mem_nil id)
        runningTasks := h1.runningTasks
        queueNotDone := fun id hid => absurd hid (List.not_mem_nil id)
        runningNotDone := h1.runningNotDone
        queueReady := fun id hid => absurd hid (List.not_mem_nil id)
        doneEvents := h1.doneEvents
        ordStart := h1.ordStart
        qcQuiescent := fun hm => ⟨(h1.qcQuiescent hm).1, rfl,
          (h1.qcQuiescent hm).2.2⟩
        qcUnique := h1.qcUnique
        qcLast := h1.qcLast }
  | setConc n hn =>
    unfold setConcurrencyRun
    dsimp only
    have h1 : InvC s.graph s.queue s.running
        (s.events ++ [Event.concurrencyChanged n]) :=
      invC_append_other (fun _ => Event.noConfusion)
        (fun _ => Event.noConfusion) (fun _ => Event.noConfusion)
        Event.noConfusion h
    split
    · exact qminv_processQueue _ h1
    · exact h1
  | settle taskId ok hrun => exact qminv_settle s taskId ok hrun h

/-- Every state of a run that starts from a duplicate-free graph with an
empty completion set satisfies the invariant. -/
theorem qminv_reachable {g : TaskGraph} {c : ℚ} {s : QMState}
    (hnd : g.tasks.Nodup) (hc : g.completed = [])
    (hr : ReachableQM g c s) : QMInv s := by
  induction hr with
  | refl =>
    show InvC g [] [] []
    refine
      { tasksNodup := hnd
        completedNodup := by rw [hc]; exact List.nodup_nil
        completedTasks := fun x hx => by rw [hc] at hx; cases hx
        queueNodup := List.nodup_nil
        runningNodup := List.nodup_nil
        queueRunning := fun id hid => absurd hid (List.not_mem_nil id)
        queueTasks := fun id hid => absurd hid (List.not_mem_nil id)
        runningTasks := fun id hid => absurd hid (List.not_mem_nil id)
        queueNotDone := fun id hid => absurd hid (List.not_mem_nil id)
        runningNotDone := fun id hid => absurd hid (List.not_mem_nil id)
        queueReady := fun id hid => absurd hid (List.not_mem_nil id)
        doneEvents := fun x hx => by rw [hc] at hx; cases hx
        ordStart := fun i y hi => by cases hi
        qcQuiescent := fun hm => absurd hm (List.not_mem_nil _)
        qcUnique := fun i j hi => by cases hi
        qcLast := fun i j x hi => by cases hi }
  | tail hsteps hstep ih => exact qminv_step hstep ih

/-- C6: in every run's emitted event sequence, each `task-start(y)` is
strictly preceded by `task-complete(x)` for every `x ∈ deps[y]`, and
`queue-complete` occurs at most once (any two occurrences coincide) and
strictly after every `task-complete` and `task-error` of the run.  A run
is any step sequence from a freshly constructed scheduler on a graph
with duplicate-free task registry and empty completion set. -/
theorem C6_event_ordering (g : TaskGraph) (c : ℚ) (s : QMState)
    (hnd : g.tasks.Nodup) (hc : g.completed = [])
    (hr : ReachableQM g c s) :
    (∀ (i : Nat) (y : TaskId), s.events[i]? = some (Event.taskStart y) →
      ∀ x ∈ assocGet s.graph.dependencies y,
        ∃ j < i, s.events[j]? = some (Event.taskComplete x)) ∧
    (∀ i j : Nat, s.events[i]? = some Event.queueComplete →
      s.events[j]? = some Event.queueComplete → i = j) ∧
    (∀ (i j : Nat) (x : TaskId), s.events[i]? = some Event.queueComplete →
      (s.events[j]? = some (Event.taskComplete x) ∨
        s.events[j]? = some (Event.taskError x)) → j < i) := by
  have h := qminv_reachable hnd hc hr
  exact ⟨h.ordStart, h.qcUnique, h.qcLast⟩

/-- C6 witness: the ordering guarantees instantiated on the two-task
graph after `start()`. -/
theorem C6_event_ordering_witness :
    gAB.tasks.Nodup ∧ gAB.completed = [] ∧
    ReachableQM gAB 2 (startQM (initQueueManager gAB 2)) ∧
    (∀ (i : Nat) (y : TaskId),
      (startQM (initQueueManager gAB 2)).events[i]?
          = some (Event.taskStart y) →
      ∀ x ∈ assocGet (startQM (initQueueManager gAB 2)).graph.dependencies y,
        ∃ j < i, (startQM (initQueueManager gAB 2)).events[j]?
          = some (Event.taskComplete x)) :=
  ⟨by decide, by decide,
    Relation.ReflTransGen.single (QMStep.start _),
    (C6_event_ordering gAB 2 (startQM (initQueueManager gAB 2))
      (by decide) (by decide)
      (Relation.ReflTransGen.single (QMStep.start _))).1⟩

/-- The dispatch loop never pushes the running-set size above the
ceiling of the concurrency bound: it can only finish at or below
`max(initial size, ceil(bound))`. -/
theorem drainList_running_bound : ∀ (l : List TaskId) (s : QMState),
    ((drainList l s).running.length : ℤ) ≤
      max (s.running.length : ℤ) ⌈s.concurrency⌉
  | [], _ => le_max_left _ _
  | taskId :: rest, s => by
    unfold drainList
    split
    · rename_i hlt
      have ih := drainList_running_bound rest
        { s with queue := rest,
                 events := s.events ++ [Event.taskStart taskId],
                 running := s.running ++ [taskId] }
      have hl : ((s.running ++ [taskId]).length : ℤ)
          = (s.running.length : ℤ) + 1 := by
        simp
      have hceil : (s.running.length : ℤ) + 1 ≤ ⌈s.concurrency⌉ := by
        have h1 : ((s.running.length : ℤ) : ℚ) < s.concurrency := by
          exact_mod_cast hlt
        exact Int.add_one_le_iff.mpr (Int.lt_ceil.mpr h1)
      refine le_trans ih ?_
      rw [hl]
      exact max_le (le_trans hceil (le_max_right _ _)) (le_max_right _ _)
    · exact le_max_left _ _

/-- The dispatch-loop bound read off `_processQueue`. -/
theorem processQueueQM_running_bound (t : QMState) :
    ((processQueueQM t).running.length : ℤ) ≤
      max (t.running.length : ℤ) ⌈t.concurrency⌉ := by
  unfold processQueueQM
  split
  · exact drainList_running_bound t.queue t
  · exact le_max_left _ _

/-- The bound for `start()`. -/
theorem startQM_running_bound (s : QMState) :
    ((startQM s).running.length : ℤ) ≤
      max (s.running.length : ℤ) ⌈(startQM s).concurrency⌉ := by
  unfold startQM
  split
  · exact le_max_left _ _
  · rw [processQueueQM_concurrency]
    exact processQueueQM_running_bound _

/-- C7 amended: no step ever dispatches new work at or above the bound,
so across any single step the running-set size stays below
`max(previous size, ceil(new bound))`: the bound can be exceeded only
transiently, when a `SetConcurrency` narrows it below the current
running count, and the excess is never increased — narrowing acts only
by not starting new work, never by preemption.  (The ceiling appears
because the source compares `running.size < concurrency` with `<` on a
possibly fractional bound, cf. C9.) -/
theorem C7_amended_step_running_bound (s s' : QMState)
    (hstep : QMStep s s') :
    ((s'.running.length : ℤ)) ≤
      max ((s.running.length : ℤ)) ⌈s'.concurrency⌉ := by
  cases hstep with
  | start => exact startQM_running_bound s
  | pause => exact le_max_left _ _
  | resume =>
    unfold resumeQM
    split
    · exact startQM_running_bound s
    · rw [processQueueQM_concurrency]
      exact processQueueQM_running_bound _
  | stop => exact le_max_left _ _
  | setConc n hn =>
    unfold setConcurrencyRun
    dsimp only
    split
    · rw [processQueueQM_concurrency]
      exact processQueueQM_running_bound _
    · exact le_max_left _ _
  | settle taskId ok hrun =>
    have he : ((s.running.erase taskId).length : ℤ)
        ≤ (s.running.length : ℤ) := by
      exact_mod_cast (s.running.erase_sublist taskId).length_le
    unfold settleQM
    cases ok with
    | false =>
      dsimp only
      rw [processQueueQM_concurrency]
      refine le_trans (processQueueQM_running_bound _) ?_
      exact max_le (le_trans he (le_max_left _ _)) (le_max_right _ _)
    | true =>
      dsimp only
      cases hcb : (s.graph.markCompleted taskId).1.isComplete with
      | true =>
        simp only [hcb, if_true]
        rw [processQueueQM_concurrency]
        refine le_trans (processQueueQM_running_bound _) ?_
        exact max_le (le_trans he (le_max_left _ _)) (le_max_right _ _)
      | false =>
        simp only [hcb, Bool.false_eq_true, if_false]
        rw [processQueueQM_concurrency]
        refine le_trans (processQueueQM_running_bound _) ?_
        exact max_le (le_trans he (le_max_left _ _)) (le_max_right _ _)

/-- C7 amended witness: the per-step bound at the `start()` step of the
two-task graph with bound 2. -/
theorem C7_amended_step_running_bound_witness :
    QMStep (initQueueManager gAB 2) (startQM (initQueueManager gAB 2)) ∧
    (((startQM (initQueueManager gAB 2)).running.length : ℤ)) ≤
      max (((initQueueManager gAB 2).running.length : ℤ))
        ⌈(startQM (initQueueManager gAB 2)).concurrency⌉ :=
  ⟨QMStep.start _,
    C7_amended_step_running_bound (initQueueManager gAB 2)
      (startQM (initQueueManager gAB 2)) (QMStep.start _)⟩
